import Mathlib

/-!
Shallow embedding of the totally-ordered-multicast program
(src/message.py, src/process.py, src/main.py).

Python strings are compared lexicographically by code point; `pyStrLtB`
mirrors that comparison on the underlying character lists.  Python dicts
are modelled as association lists (`mapLookup` / `mapInsert` / `mapErase`
reproduce `d[k]`, `d[k] = v`, `del d[k]` observably), Python sets of
process names as `Finset String`, and `list.sort(key=...)` — a stable
sort — as `List.insertionSort` with the key order `(timestamp, sender)`;
any two stable sorts agree on every input, so this is observation-exact.
Network effects (socket sends, the deferred ack timer, printing) have no
effect on a process's own state and are omitted; each Python method that
mutates `self` becomes a function from the process state to a new state.
-/

/-- Code-point lexicographic strict comparison on character lists, as Python
compares strings. -/
def pyStrLtB : List Char → List Char → Bool
  | [], [] => false
  | [], _ :: _ => true
  | _ :: _, [] => false
  | c :: cs, d :: ds =>
      if c < d then true
      else if d < c then false
      else pyStrLtB cs ds

/-- Python string `a <= b`: strictly less by code points, or equal. -/
def pyStrLe (a b : String) : Prop := pyStrLtB a.data b.data = true ∨ a = b

instance : DecidableRel pyStrLe := fun a b => by
  unfold pyStrLe
  infer_instance

/-- message.py: `class MessageType(Enum)` with values `"multicast"` and `"ack"`. -/
inductive MessageType where
  | multicast
  | ack
deriving DecidableEq

/-- The `.value` of a `MessageType` member. -/
def MessageType.value : MessageType → String
  | MessageType.multicast => ("multicast")
  | MessageType.ack => ("ack")

/-- message.py: `MessageType(v)` — enum lookup by value; raises `ValueError`
(modelled as `none`) on any other string. -/
def MessageType.ofValue (v : String) : Option MessageType :=
  if v = ("multicast") then some MessageType.multicast
  else if v = ("ack") then some MessageType.ack
  else none

/-- message.py: the six attributes of `Message`. -/
structure Message where
  msg_id : String
  msg_type : MessageType
  sender : String
  timestamp : Int
  content : Option String
  original_msg_id : Option String
deriving DecidableEq

/-- message.py: `Message.__init__` — `msg_id` is derived as
`f"{sender}_{timestamp}"`. -/
def Message.make (msg_type : MessageType) (sender : String) (timestamp : Int)
    (content : Option String) (original_msg_id : Option String) : Message :=
  { msg_id := sender ++ ("_") ++ toString timestamp,
    msg_type := msg_type, sender := sender, timestamp := timestamp,
    content := content, original_msg_id := original_msg_id }

/-- message.py: the dictionary produced by `to_dict` / consumed by `from_dict`
(field `msg_type` holds the enum's string value). -/
structure MessageDict where
  msg_id : String
  msg_type : String
  sender : String
  timestamp : Int
  content : Option String
  original_msg_id : Option String
deriving DecidableEq

/-- message.py: `Message.to_dict`. -/
def Message.to_dict (m : Message) : MessageDict :=
  { msg_id := m.msg_id, msg_type := m.msg_type.value, sender := m.sender,
    timestamp := m.timestamp, content := m.content,
    original_msg_id := m.original_msg_id }

/-- message.py: `Message.from_dict` — constructs through `Message.__init__`
and then overwrites `msg_id` with the dictionary's `msg_id` verbatim. -/
def Message.from_dict (d : MessageDict) : Option Message :=
  match MessageType.ofValue d.msg_type with
  | none => none
  | some ty =>
      let message := Message.make ty d.sender d.timestamp d.content d.original_msg_id
      some { message with msg_id := d.msg_id }

/-- Keys of the two dict-typed attributes of `Process`.  Python dict keys here
are the strings `msg_id` / `original_msg_id`; `original_msg_id` can be `None`,
so the key type is `Option String`. -/
abbrev DictKey := Option String

/-- Python `d.get(k)` / `k in d` on an association-list dict. -/
def mapLookup {α : Type} : List (DictKey × α) → DictKey → Option α
  | [], _ => none
  | (k₁, v) :: t, k => if k₁ = k then some v else mapLookup t k

/-- Python `d[k] = v`: overwrite the binding of `k` in place, or add one. -/
def mapInsert {α : Type} : List (DictKey × α) → DictKey → α → List (DictKey × α)
  | [], k, v => [(k, v)]
  | (k₁, v₁) :: t, k, v =>
      if k₁ = k then (k, v) :: t else (k₁, v₁) :: mapInsert t k v

/-- Python `del d[k]`. -/
def mapErase {α : Type} (m : List (DictKey × α)) (k : DictKey) :
    List (DictKey × α) :=
  m.filter (fun p => decide (p.1 ≠ k))

/-- process.py: the mutable state of one `Process` instance (locks, sockets and
threads carry no protocol state and are omitted). -/
structure ProcState where
  proc_id : String
  port : Int
  other_ports : List Int
  clock_increment : Int
  logical_clock : Int
  message_queue : List Message
  acknowledgments : List (DictKey × Finset String)
  all_ports : List Int
  all_processes : Finset String
  required_acks : Nat
  pending_acks : List (DictKey × List Message)
deriving DecidableEq

/-- process.py: `increment_clock` — add `clock_increment`, return the new
clock value together with the updated state. -/
def increment_clock (s : ProcState) : Int × ProcState :=
  (s.logical_clock + s.clock_increment,
   { s with logical_clock := s.logical_clock + s.clock_increment })

/-- process.py: `update_clock_on_receive` — `Cj ← max(Cj, ts(m))`. -/
def update_clock_on_receive (s : ProcState) (received_timestamp : Int) : ProcState :=
  { s with logical_clock := max s.logical_clock received_timestamp }

/-- process.py: `increment_for_delivery` — same mutation as
`increment_clock`, kept as its own operation as in the source. -/
def increment_for_delivery (s : ProcState) : Int × ProcState :=
  (s.logical_clock + s.clock_increment,
   { s with logical_clock := s.logical_clock + s.clock_increment })

/-- process.py line 137: the sort key `lambda m: (m.timestamp, m.sender)`
compared as Python compares tuples — timestamp first, sender string as
tie-break. -/
def msgKeyLe (a b : Message) : Prop :=
  a.timestamp < b.timestamp ∨
    (a.timestamp = b.timestamp ∧ pyStrLe a.sender b.sender)

instance : DecidableRel msgKeyLe := fun a b => by
  unfold msgKeyLe
  infer_instance

/-- process.py: `_process_acknowledgment` — clock rules, then either record
the ack sender in the acknowledgment set of `original_msg_id`, or buffer the
whole ack message under that id in `pending_acks`. -/
def processAcknowledgment (s : ProcState) (message : Message) : ProcState :=
  let s₁ := update_clock_on_receive s message.timestamp
  let s₂ := (increment_for_delivery s₁).2
  match mapLookup s₂.acknowledgments message.original_msg_id with
  | some acked =>
      let acks := mapInsert s₂.acknowledgments message.original_msg_id (insert message.sender acked)
      { s₂ with acknowledgments := acks }
  | none =>
      let bucket := (mapLookup s₂.pending_acks message.original_msg_id).getD []
      let pending := mapInsert s₂.pending_acks message.original_msg_id (bucket ++ [message])
      { s₂ with pending_acks := pending }

/-- process.py: `_process_received_message`.  For a MULTICAST: clock rules,
append to the queue and re-sort by `(timestamp, sender)`, set the
acknowledgment entry of `msg_id` to the empty set, then drain any pending
acks buffered for that id through `_process_acknowledgment` (the deferred
`_send_acknowledgment` timer is a network effect and leaves local state
untouched).  For an ACK: delegate to `_process_acknowledgment`. -/
def processReceivedMessage (s : ProcState) (message : Message) : ProcState :=
  match message.msg_type with
  | MessageType.multicast =>
      let s₁ := update_clock_on_receive s message.timestamp
      let s₂ := (increment_for_delivery s₁).2
      let s₃ := { s₂ with message_queue := List.insertionSort msgKeyLe (s₂.message_queue ++ [message]) }
      let s₄ := { s₃ with acknowledgments := mapInsert s₃.acknowledgments (some message.msg_id) ∅ }
      match mapLookup s₄.pending_acks (some message.msg_id) with
      | some pending_ack_messages =>
          let s₅ := { s₄ with pending_acks := mapErase s₄.pending_acks (some message.msg_id) }
          pending_ack_messages.foldl processAcknowledgment s₅
      | none => s₄
  | MessageType.ack => processAcknowledgment s message

/-- process.py: `try_deliver_message` — only the queue head (index 0) is
examined; it is delivered exactly when its acknowledgment entry exists and
has at least `required_acks` members, in which case the head is popped and
its acknowledgment entry deleted (`_deliver_message` only prints). -/
def tryDeliverMessage (s : ProcState) : Bool × ProcState :=
  match s.message_queue with
  | [] => (false, s)
  | head_message :: rest =>
      match mapLookup s.acknowledgments (some head_message.msg_id) with
      | some acked_by =>
          if s.required_acks ≤ acked_by.card then
            (true, { s with
              message_queue := rest,
              acknowledgments := mapErase s.acknowledgments (some head_message.msg_id) })
          else (false, s)
      | none => (false, s)

/-- process.py: `send_message` — tick the clock, build the MULTICAST with the
new clock value as timestamp, create its empty acknowledgment entry, and
broadcast (a network effect).  Returns the new state and the message sent. -/
def sendMessage (s : ProcState) (content : String) : ProcState × Message :=
  let r := increment_clock s
  let message := Message.make MessageType.multicast r.2.proc_id r.1 (some content) none
  let acks := mapInsert r.2.acknowledgments (some message.msg_id) ∅
  ({ r.2 with acknowledgments := acks }, message)

/-- process.py line 38: the hard-coded port-to-process-name map; a port
outside its domain raises `KeyError`, modelled as `none`. -/
def port_to_process (p : Int) : Option String :=
  if p = 5000 then some ("processo1")
  else if p = 5001 then some ("processo2")
  else if p = 5002 then some ("processo3")
  else none

/-- The list comprehension `[port_to_process[p] for p in all_ports]`:
evaluates left to right and fails (`KeyError`) at the first unmapped port. -/
def lookupNames : List Int → Option (List String)
  | [] => some []
  | p :: t =>
      match port_to_process p with
      | none => none
      | some n =>
          match lookupNames t with
          | none => none
          | some ns => some (n :: ns)

/-- process.py: `Process.__init__` — `all_ports = sorted([port] + other_ports)`,
`all_processes = set(...)` via the port map (a `KeyError` aborts construction,
modelled as `none`), `required_acks = len(all_processes)`; clock 0, empty
queue, empty acknowledgment table, empty pending buffer. -/
def initProcess (proc_id : String) (port : Int) (other_ports : List Int)
    (clock_increment : Int) : Option ProcState :=
  let all_ports := List.insertionSort (· ≤ ·) (port :: other_ports)
  match lookupNames all_ports with
  | none => none
  | some names =>
      some { proc_id := proc_id, port := port, other_ports := other_ports,
             clock_increment := clock_increment, logical_clock := 0,
             message_queue := [], acknowledgments := [],
             all_ports := all_ports, all_processes := names.toFinset,
             required_acks := names.toFinset.card, pending_acks := [] }

/-- The three clock operations of process.py, for reasoning about arbitrary
call sequences. -/
inductive ClockOp where
  | tick
  | observe (x : Int)
  | tickDeliver

/-- Apply one clock operation to the state. -/
def applyClockOp (s : ProcState) (op : ClockOp) : ProcState :=
  match op with
  | ClockOp.tick => (increment_clock s).2
  | ClockOp.observe x => update_clock_on_receive s x
  | ClockOp.tickDeliver => (increment_for_delivery s).2

/-- A first concrete multicast message, for the concrete instances below. -/
def msgA : Message := Message.make MessageType.multicast ("processo1") 1 (some ("hello")) none

/-- A second concrete multicast with a larger timestamp. -/
def msgB : Message := Message.make MessageType.multicast ("processo2") 2 (some ("world")) none

/-- A third concrete multicast with a larger timestamp again. -/
def msgC : Message := Message.make MessageType.multicast ("processo3") 3 (some ("again")) none

/-- An acknowledgment of `msgA` by processo2. -/
def ackA2 : Message := Message.make MessageType.ack ("processo2") 4 none (some msgA.msg_id)

/-- An acknowledgment of `msgA` by processo3. -/
def ackA3 : Message := Message.make MessageType.ack ("processo3") 5 none (some msgA.msg_id)

/-- A concrete process state as reached after both multicasts were enqueued
and `msgA` was acknowledged by the whole group. -/
def baseState : ProcState :=
  { proc_id := "processo1", port := 5000, other_ports := [5001, 5002],
    clock_increment := 1, logical_clock := 4,
    message_queue := [msgA, msgB],
    acknowledgments := [(some msgA.msg_id, {"processo1", "processo2", "processo3"}), (some msgB.msg_id, {"processo2"})],
    all_ports := [5000, 5001, 5002],
    all_processes := {"processo1", "processo2", "processo3"},
    required_acks := 3,
    pending_acks := [] }

/-- A concrete state whose queue head has only one of three acknowledgments. -/
def blockedState : ProcState :=
  { baseState with acknowledgments := [(some msgA.msg_id, {"processo1"})] }

/-- A concrete state holding two buffered acks for `msgA`, which has not
arrived yet. -/
def pendingState : ProcState :=
  { baseState with
    message_queue := [],
    acknowledgments := [],
    pending_acks := [(some msgA.msg_id, [ackA2, ackA3])] }

/-- A concrete state with a deliverable head and one pending-ack bucket. -/
def deliverableWithPending : ProcState :=
  { baseState with pending_acks := [(some msgB.msg_id, [ackA2])] }

/-- A wire dictionary whose `msg_id` field does not match `sender_timestamp`. -/
def weirdDict : MessageDict := { Message.to_dict msgA with msg_id := ("weird") }

/-- The message that decoding `weirdDict` produces: `msgA` but keeping the
differing id verbatim. -/
def weirdMsg : Message := { msgA with msg_id := ("weird") }

/-- Looking up the key just written finds the written value. -/
theorem mapLookup_mapInsert_self {α : Type} (m : List (DictKey × α)) (k : DictKey) (v : α) :
    mapLookup (mapInsert m k v) k = some v := by
  induction m with
  | nil => simp [mapInsert, mapLookup]
  | cons p t ih =>
    obtain ⟨k₁, v₁⟩ := p
    by_cases h : k₁ = k
    · simp [mapInsert, h, mapLookup]
    · simp [mapInsert, h, mapLookup, ih]

/-- Writing one key leaves every other key's binding unchanged. -/
theorem mapLookup_mapInsert_ne {α : Type} (m : List (DictKey × α)) (k k₂ : DictKey) (v : α)
    (h : k₂ ≠ k) : mapLookup (mapInsert m k v) k₂ = mapLookup m k₂ := by
  induction m with
  | nil => simp [mapInsert, mapLookup, Ne.symm h]
  | cons p t ih =>
    obtain ⟨k₁, v₁⟩ := p
    by_cases h₁ : k₁ = k
    · subst h₁
      simp [mapInsert, mapLookup, Ne.symm h]
    · simp [mapInsert, h₁, mapLookup, ih]

/-- Deleting a key removes its binding. -/
theorem mapLookup_mapErase_self {α : Type} (m : List (DictKey × α)) (k : DictKey) :
    mapLookup (mapErase m k) k = none := by
  induction m with
  | nil => simp [mapErase, mapLookup]
  | cons p t ih =>
    obtain ⟨k₁, v₁⟩ := p
    by_cases h : k₁ = k
    · simpa [mapErase, List.filter_cons, h] using ih
    · simpa [mapErase, List.filter_cons, h, mapLookup] using ih

/-- Deleting one key leaves every other key's binding unchanged. -/
theorem mapLookup_mapErase_ne {α : Type} (m : List (DictKey × α)) (k k₂ : DictKey)
    (h : k₂ ≠ k) : mapLookup (mapErase m k) k₂ = mapLookup m k₂ := by
  induction m with
  | nil => simp [mapErase, mapLookup]
  | cons p t ih =>
    obtain ⟨k₁, v₁⟩ := p
    by_cases h₁ : k₁ = k
    · subst h₁
      simpa [mapErase, List.filter_cons, mapLookup, Ne.symm h] using ih
    · by_cases h₂ : k₁ = k₂
      · subst h₂
        simp [mapErase, List.filter_cons, h₁, mapLookup]
      · simpa [mapErase, List.filter_cons, h₁, mapLookup, h₂] using ih

/-- `_process_acknowledgment` never touches the queue, the increment, the
quorum size, or the process id. -/
theorem processAcknowledgment_frame (s : ProcState) (m : Message) :
    (processAcknowledgment s m).message_queue = s.message_queue ∧
      (processAcknowledgment s m).clock_increment = s.clock_increment ∧
      (processAcknowledgment s m).required_acks = s.required_acks ∧
      (processAcknowledgment s m).proc_id = s.proc_id := by
  unfold processAcknowledgment
  dsimp only
  split <;> simp [update_clock_on_receive, increment_for_delivery]

/-- Draining a list of buffered acks never touches the queue. -/
theorem foldl_processAcknowledgment_queue (l : List Message) (s : ProcState) :
    (l.foldl processAcknowledgment s).message_queue = s.message_queue := by
  induction l generalizing s with
  | nil => rfl
  | cons b t ih => rw [List.foldl_cons, ih, (processAcknowledgment_frame s b).1]

/-- C1: for every process state, `try_deliver_message` returns success iff the
message queue is non-empty, the head message's id has an acknowledgment-table
entry, and that entry's size is at least `required_acks`; the success
condition mentions the head (index 0) only, so a non-head message is never
delivered and an absent entry for the head blocks delivery. -/
theorem try_deliver_success_iff (s : ProcState) :
    (tryDeliverMessage s).1 = true ↔
      ∃ h t A, s.message_queue = h :: t ∧
        mapLookup s.acknowledgments (some h.msg_id) = some A ∧
        s.required_acks ≤ A.card := by
  constructor
  · intro hsucc
    unfold tryDeliverMessage at hsucc
    split at hsucc
    · simp at hsucc
    · rename_i head rest hq
      split at hsucc
      · rename_i A ha
        split at hsucc
        · rename_i hcard
          exact ⟨head, rest, A, hq, ha, hcard⟩
        · simp at hsucc
      · simp at hsucc
  · rintro ⟨h, t, A, hq, hA, hcard⟩
    unfold tryDeliverMessage
    rw [hq]
    simp [hA, hcard]

/-- C4: on an empty queue, or on a head whose acknowledgment entry is absent
or smaller than `required_acks`, `try_deliver_message` returns the failure
value with the state unchanged — queue, acknowledgment table, pending buffer
and logical clock included (the function is total: no exception path). -/
theorem try_deliver_failure_noop (s : ProcState)
    (hfail : s.message_queue = [] ∨
      ∃ h t, s.message_queue = h :: t ∧
        (mapLookup s.acknowledgments (some h.msg_id) = none ∨
          ∃ A, mapLookup s.acknowledgments (some h.msg_id) = some A ∧
            A.card < s.required_acks)) :
    tryDeliverMessage s = (false, s) := by
  unfold tryDeliverMessage
  rcases hfail with hq | ⟨h, t, hq, hcase⟩
  · rw [hq]
  · rw [hq]
    rcases hcase with hnone | ⟨A, hA, hlt⟩
    · simp [hnone]
    · simp [hA, Nat.not_le.mpr hlt]

/-- On a successful delivery the resulting state is the old one with the head
popped and the head's acknowledgment entry deleted. -/
theorem tryDeliver_success_state (s s₂ : ProcState) (h : Message) (t : List Message)
    (hq : s.message_queue = h :: t)
    (hs : tryDeliverMessage s = (true, s₂)) :
    s₂ = { s with message_queue := t, acknowledgments := mapErase s.acknowledgments (some h.msg_id) } := by
  unfold tryDeliverMessage at hs
  split at hs
  · rename_i hq₂
    rw [hq] at hq₂
    cases hq₂
  · rename_i head rest hq₂
    rw [hq] at hq₂
    injection hq₂ with he₁ he₂
    subst he₁
    subst he₂
    split at hs
    · rename_i A ha
      split at hs
      · have hsnd := congrArg Prod.snd hs
        simpa using hsnd.symm
      · simp at hs
    · simp at hs

/-- `try_deliver_message` never touches the pending-ack buffer. -/
theorem tryDeliver_pending_unchanged (s : ProcState) :
    (tryDeliverMessage s).2.pending_acks = s.pending_acks := by
  unfold tryDeliverMessage
  split
  · rfl
  · split
    · split <;> rfl
    · rfl

/-- C5: a successful `try_deliver_message` pops exactly the head and deletes
exactly the head's acknowledgment-table entry; the rest of the queue keeps
its order, every other acknowledgment entry, the pending-ack buffer and the
logical clock are unchanged, so the next call evaluates the new head. -/
theorem try_deliver_success_frame (s s₂ : ProcState) (h : Message) (t : List Message)
    (hq : s.message_queue = h :: t)
    (hs : tryDeliverMessage s = (true, s₂)) :
    s₂.message_queue = t ∧
      mapLookup s₂.acknowledgments (some h.msg_id) = none ∧
      (∀ k, k ≠ some h.msg_id →
        mapLookup s₂.acknowledgments k = mapLookup s.acknowledgments k) ∧
      s₂.pending_acks = s.pending_acks ∧
      s₂.logical_clock = s.logical_clock ∧
      s₂.required_acks = s.required_acks := by
  rw [tryDeliver_success_state s s₂ h t hq hs]
  refine ⟨rfl, mapLookup_mapErase_self _ _, ?_, rfl, rfl, rfl⟩
  intro k hk
  exact mapLookup_mapErase_ne _ _ _ hk

/-- Witness for C4: a state whose head has one of three acknowledgments. -/
theorem try_deliver_failure_noop_witness :
    tryDeliverMessage blockedState = (false, blockedState) :=
  try_deliver_failure_noop blockedState
    (Or.inr ⟨msgA, [msgB], rfl, Or.inr ⟨{"processo1"}, by decide, by decide⟩⟩)

/-- Witness for C5 at the concrete fully-acknowledged state. -/
theorem try_deliver_success_frame_witness :
    (tryDeliverMessage baseState).2.message_queue = [msgB] ∧
      mapLookup (tryDeliverMessage baseState).2.acknowledgments (some msgA.msg_id) = none ∧
      (∀ k, k ≠ some msgA.msg_id →
        mapLookup (tryDeliverMessage baseState).2.acknowledgments k = mapLookup baseState.acknowledgments k) ∧
      (tryDeliverMessage baseState).2.pending_acks = baseState.pending_acks ∧
      (tryDeliverMessage baseState).2.logical_clock = baseState.logical_clock ∧
      (tryDeliverMessage baseState).2.required_acks = baseState.required_acks :=
  try_deliver_success_frame baseState (tryDeliverMessage baseState).2 msgA [msgB] rfl (by decide)

/-- One clock operation never decreases the clock (for a positive increment)
and never changes the increment. -/
theorem applyClockOp_mono (s : ProcState) (op : ClockOp) (hpos : 0 < s.clock_increment) :
    s.logical_clock ≤ (applyClockOp s op).logical_clock ∧
      (applyClockOp s op).clock_increment = s.clock_increment := by
  cases op with
  | tick =>
    refine ⟨?_, rfl⟩
    simp only [applyClockOp, increment_clock]
    omega
  | observe x =>
    refine ⟨?_, rfl⟩
    simp only [applyClockOp, update_clock_on_receive]
    exact le_max_left _ _
  | tickDeliver =>
    refine ⟨?_, rfl⟩
    simp only [applyClockOp, increment_for_delivery]
    omega

/-- Folding any sequence of clock operations never decreases the clock. -/
theorem foldl_clockOps_mono (ops : List ClockOp) :
    ∀ (s : ProcState), 0 < s.clock_increment →
      s.logical_clock ≤ (ops.foldl applyClockOp s).logical_clock := by
  induction ops with
  | nil =>
    intro s _
    exact le_refl _
  | cons op t ih =>
    intro s hpos
    rw [List.foldl_cons]
    have h₁ := applyClockOp_mono s op hpos
    exact le_trans h₁.1 (ih _ (by rw [h₁.2]; exact hpos))

/-- C7: with a positive clock_increment, every sequence of increment_clock,
update_clock_on_receive and increment_for_delivery calls leaves the logical
clock non-decreasing; update_clock_on_receive sets it to max(clock, x) and
never decreases it. -/
theorem clock_monotone (s : ProcState) (ops : List ClockOp) (x : Int)
    (hpos : 0 < s.clock_increment) :
    s.logical_clock ≤ (ops.foldl applyClockOp s).logical_clock ∧
      (update_clock_on_receive s x).logical_clock = max s.logical_clock x ∧
      s.logical_clock ≤ (update_clock_on_receive s x).logical_clock :=
  ⟨foldl_clockOps_mono ops s hpos, rfl, le_max_left _ _⟩

/-- Witness for C7: a concrete three-operation sequence on `baseState`. -/
theorem clock_monotone_witness :
    baseState.logical_clock ≤
        ([ClockOp.tick, ClockOp.observe 0, ClockOp.tickDeliver].foldl applyClockOp baseState).logical_clock ∧
      (update_clock_on_receive baseState 2).logical_clock = max baseState.logical_clock 2 ∧
      baseState.logical_clock ≤ (update_clock_on_receive baseState 2).logical_clock :=
  clock_monotone baseState [ClockOp.tick, ClockOp.observe 0, ClockOp.tickDeliver] 2 (by decide)

/-- When the acknowledgment entry exists, `_process_acknowledgment` adds the
sender to it and leaves the pending buffer alone. -/
theorem processAcknowledgment_hit (s : ProcState) (b : Message) (A : Finset String)
    (hA : mapLookup s.acknowledgments b.original_msg_id = some A) :
    (processAcknowledgment s b).acknowledgments
        = mapInsert s.acknowledgments b.original_msg_id (insert b.sender A) ∧
      (processAcknowledgment s b).pending_acks = s.pending_acks := by
  unfold processAcknowledgment update_clock_on_receive increment_for_delivery
  dsimp only
  rw [hA]
  exact ⟨rfl, rfl⟩

/-- When the acknowledgment entry is absent, `_process_acknowledgment` leaves
the table alone and appends the ack to its pending bucket. -/
theorem processAcknowledgment_miss (s : ProcState) (b : Message)
    (hA : mapLookup s.acknowledgments b.original_msg_id = none) :
    (processAcknowledgment s b).acknowledgments = s.acknowledgments ∧
      (processAcknowledgment s b).pending_acks
        = mapInsert s.pending_acks b.original_msg_id
            (((mapLookup s.pending_acks b.original_msg_id).getD []) ++ [b]) := by
  unfold processAcknowledgment update_clock_on_receive increment_for_delivery
  dsimp only
  rw [hA]
  exact ⟨rfl, rfl⟩

/-- Receiving a multicast with no pending bucket for its id: the whole
resulting state, explicitly. -/
theorem processReceivedMessage_multicast_nopending (s : ProcState) (m : Message)
    (hm : m.msg_type = MessageType.multicast)
    (hp : mapLookup s.pending_acks (some m.msg_id) = none) :
    processReceivedMessage s m
      = { s with
          logical_clock := max s.logical_clock m.timestamp + s.clock_increment,
          message_queue := List.insertionSort msgKeyLe (s.message_queue ++ [m]),
          acknowledgments := mapInsert s.acknowledgments (some m.msg_id) ∅ } := by
  unfold processReceivedMessage update_clock_on_receive increment_for_delivery
  rw [hm]
  dsimp only
  rw [hp]

/-- Receiving a multicast with a pending bucket for its id: the bucket is
removed and folded through `_process_acknowledgment`. -/
theorem processReceivedMessage_multicast_drain (s : ProcState) (m : Message)
    (bucket : List Message)
    (hm : m.msg_type = MessageType.multicast)
    (hbucket : mapLookup s.pending_acks (some m.msg_id) = some bucket) :
    processReceivedMessage s m
      = bucket.foldl processAcknowledgment
          { s with
            logical_clock := max s.logical_clock m.timestamp + s.clock_increment,
            message_queue := List.insertionSort msgKeyLe (s.message_queue ++ [m]),
            acknowledgments := mapInsert s.acknowledgments (some m.msg_id) ∅,
            pending_acks := mapErase s.pending_acks (some m.msg_id) } := by
  unfold processReceivedMessage update_clock_on_receive increment_for_delivery
  rw [hm]
  dsimp only
  rw [hbucket]

/-- C6: on receiving any multicast `m` (here with no buffered acks to drain),
the acknowledgment entry of `m.msg_id` is set to the empty set, overwriting
whatever set `A` was there — including the entry created by `send_message`
on the originating process, which is also created empty. -/
theorem ack_entry_reset_on_receive (s : ProcState) (m : Message) (A : Finset String) (c : String)
    (hm : m.msg_type = MessageType.multicast)
    (hA : mapLookup s.acknowledgments (some m.msg_id) = some A)
    (hp : mapLookup s.pending_acks (some m.msg_id) = none) :
    mapLookup (processReceivedMessage s m).acknowledgments (some m.msg_id) = some ∅ ∧
      mapLookup (sendMessage s c).1.acknowledgments (some (sendMessage s c).2.msg_id) = some ∅ := by
  constructor
  · rw [processReceivedMessage_multicast_nopending s m hm hp]
    exact mapLookup_mapInsert_self _ _ _
  · unfold sendMessage increment_clock
    dsimp only
    exact mapLookup_mapInsert_self _ _ _

/-- Witness for C6: `baseState` holds a full three-member set for `msgA`,
which re-receiving `msgA` resets to the empty set. -/
theorem ack_entry_reset_on_receive_witness :
    mapLookup (processReceivedMessage baseState msgA).acknowledgments (some msgA.msg_id) = some ∅ ∧
      mapLookup (sendMessage baseState ("hi")).1.acknowledgments
          (some (sendMessage baseState ("hi")).2.msg_id) = some ∅ :=
  ack_entry_reset_on_receive baseState msgA {"processo1", "processo2", "processo3"} ("hi")
    rfl (by decide) (by decide)

/-- Draining a bucket of acks all targeting key `k`, starting from a table
that has an entry `A` at `k`: the entry accumulates every sender in the
bucket, and the pending buffer is untouched. -/
theorem foldl_ack_replay (bucket : List Message) :
    ∀ (s : ProcState) (k : DictKey) (A : Finset String),
      mapLookup s.acknowledgments k = some A →
      (∀ b ∈ bucket, b.original_msg_id = k) →
      mapLookup (bucket.foldl processAcknowledgment s).acknowledgments k
          = some (A ∪ (bucket.map Message.sender).toFinset) ∧
        (bucket.foldl processAcknowledgment s).pending_acks = s.pending_acks := by
  induction bucket with
  | nil =>
    intro s k A hA _
    refine ⟨?_, rfl⟩
    simpa using hA
  | cons b bs ih =>
    intro s k A hA hall
    have hb : b.original_msg_id = k := hall b (List.mem_cons_self b bs)
    have hstep := processAcknowledgment_hit s b A (by rw [hb]; exact hA)
    have hlook : mapLookup (processAcknowledgment s b).acknowledgments k
        = some (insert b.sender A) := by
      rw [hstep.1, hb]
      exact mapLookup_mapInsert_self _ _ _
    have hrec := ih (processAcknowledgment s b) k (insert b.sender A) hlook
      (fun x hx => hall x (List.mem_cons_of_mem b hx))
    rw [List.foldl_cons]
    refine ⟨?_, by rw [hrec.2, hstep.2]⟩
    rw [hrec.1, List.map_cons, List.toFinset_cons, Finset.insert_union, Finset.union_insert]

/-- C3: an ack whose target has no acknowledgment entry is appended to the
pending bucket of its `original_msg_id`; when the multicast with that id is
then enqueued, the bucket is removed and each buffered sender lands in the
fresh acknowledgment set exactly once (set semantics: no double-count, no
loss). -/
theorem pending_ack_buffered_then_replayed (s₀ s : ProcState) (a m : Message)
    (bucket : List Message)
    (hnoentry : mapLookup s₀.acknowledgments a.original_msg_id = none)
    (hm : m.msg_type = MessageType.multicast)
    (hbucket : mapLookup s.pending_acks (some m.msg_id) = some bucket)
    (hall : ∀ b ∈ bucket, b.original_msg_id = some m.msg_id) :
    mapLookup (processAcknowledgment s₀ a).pending_acks a.original_msg_id
        = some (((mapLookup s₀.pending_acks a.original_msg_id).getD []) ++ [a]) ∧
      mapLookup (processReceivedMessage s m).pending_acks (some m.msg_id) = none ∧
      mapLookup (processReceivedMessage s m).acknowledgments (some m.msg_id)
        = some (bucket.map Message.sender).toFinset := by
  have hmiss := processAcknowledgment_miss s₀ a hnoentry
  have hdrain := processReceivedMessage_multicast_drain s m bucket hm hbucket
  have hfold := foldl_ack_replay bucket
    { s with
      logical_clock := max s.logical_clock m.timestamp + s.clock_increment,
      message_queue := List.insertionSort msgKeyLe (s.message_queue ++ [m]),
      acknowledgments := mapInsert s.acknowledgments (some m.msg_id) ∅,
      pending_acks := mapErase s.pending_acks (some m.msg_id) }
    (some m.msg_id) ∅ (mapLookup_mapInsert_self _ _ _) hall
  refine ⟨?_, ?_, ?_⟩
  · rw [hmiss.2]
    exact mapLookup_mapInsert_self _ _ _
  · rw [hdrain, hfold.2]
    exact mapLookup_mapErase_self _ _
  · rw [hdrain, hfold.1]
    rw [Finset.empty_union]

/-- Witness for C3: two acks for `msgA` are buffered in `pendingState`;
receiving `msgA` drains them into its fresh acknowledgment set. -/
theorem pending_ack_buffered_then_replayed_witness :
    mapLookup (processAcknowledgment pendingState ackA2).pending_acks ackA2.original_msg_id
        = some (((mapLookup pendingState.pending_acks ackA2.original_msg_id).getD []) ++ [ackA2]) ∧
      mapLookup (processReceivedMessage pendingState msgA).pending_acks (some msgA.msg_id) = none ∧
      mapLookup (processReceivedMessage pendingState msgA).acknowledgments (some msgA.msg_id)
        = some ([ackA2, ackA3].map Message.sender).toFinset :=
  pending_ack_buffered_then_replayed pendingState pendingState ackA2 msgA [ackA2, ackA3]
    (by decide) rfl (by decide) (by decide)

/-- `_process_acknowledgment` never removes or shrinks a pending bucket: an
existing bucket survives, at most extended. -/
theorem processAcknowledgment_pending_grows (s : ProcState) (b : Message)
    (k : DictKey) (l : List Message)
    (hl : mapLookup s.pending_acks k = some l) :
    ∃ rest, mapLookup (processAcknowledgment s b).pending_acks k = some (l ++ rest) := by
  cases hA : mapLookup s.acknowledgments b.original_msg_id with
  | some A =>
    refine ⟨[], ?_⟩
    rw [List.append_nil, (processAcknowledgment_hit s b A hA).2]
    exact hl
  | none =>
    have hmiss := processAcknowledgment_miss s b hA
    by_cases hk : b.original_msg_id = k
    · subst hk
      refine ⟨[b], ?_⟩
      rw [hmiss.2, hl]
      simpa [hl] using mapLookup_mapInsert_self s.pending_acks b.original_msg_id
        (((mapLookup s.pending_acks b.original_msg_id).getD []) ++ [b])
    · refine ⟨[], ?_⟩
      rw [List.append_nil, hmiss.2, mapLookup_mapInsert_ne _ _ _ _ (fun hh => hk hh.symm)]
      exact hl

/-- C8: after a successful delivery removed the head's acknowledgment entry,
a late ack for that id finds no entry, is buffered (not counted: the table is
unchanged), and its bucket can only be removed by a multicast enqueue for
that id — `try_deliver_message` leaves the pending buffer untouched and
`_process_acknowledgment` only ever extends buckets. -/
theorem late_ack_after_delivery (s s₂ : ProcState) (h : Message) (t : List Message)
    (a b : Message) (k : DictKey) (l : List Message)
    (hq : s.message_queue = h :: t)
    (hd : tryDeliverMessage s = (true, s₂))
    (ha : a.original_msg_id = some h.msg_id)
    (hl : mapLookup s₂.pending_acks k = some l) :
    mapLookup s₂.acknowledgments (some h.msg_id) = none ∧
      (processAcknowledgment s₂ a).acknowledgments = s₂.acknowledgments ∧
      mapLookup (processAcknowledgment s₂ a).pending_acks a.original_msg_id
        = some (((mapLookup s₂.pending_acks a.original_msg_id).getD []) ++ [a]) ∧
      (tryDeliverMessage s₂).2.pending_acks = s₂.pending_acks ∧
      (∃ rest, mapLookup (processAcknowledgment s₂ b).pending_acks k = some (l ++ rest)) := by
  have hstate := tryDeliver_success_state s s₂ h t hq hd
  have hgone : mapLookup s₂.acknowledgments (some h.msg_id) = none := by
    rw [hstate]
    exact mapLookup_mapErase_self _ _
  have hnoentry : mapLookup s₂.acknowledgments a.original_msg_id = none := by
    rw [ha]
    exact hgone
  have hmiss := processAcknowledgment_miss s₂ a hnoentry
  refine ⟨hgone, hmiss.1, ?_, tryDeliver_pending_unchanged s₂, ?_⟩
  · rw [hmiss.2]
    exact mapLookup_mapInsert_self _ _ _
  · exact processAcknowledgment_pending_grows s₂ b k l hl

/-- Witness for C8 on a concrete deliverable state with one pending bucket. -/
theorem late_ack_after_delivery_witness :
    mapLookup (tryDeliverMessage deliverableWithPending).2.acknowledgments (some msgA.msg_id) = none ∧
      (processAcknowledgment (tryDeliverMessage deliverableWithPending).2 ackA2).acknowledgments
        = (tryDeliverMessage deliverableWithPending).2.acknowledgments ∧
      mapLookup (processAcknowledgment (tryDeliverMessage deliverableWithPending).2 ackA2).pending_acks
          ackA2.original_msg_id
        = some (((mapLookup (tryDeliverMessage deliverableWithPending).2.pending_acks
            ackA2.original_msg_id).getD []) ++ [ackA2]) ∧
      (tryDeliverMessage (tryDeliverMessage deliverableWithPending).2).2.pending_acks
        = (tryDeliverMessage deliverableWithPending).2.pending_acks ∧
      (∃ rest, mapLookup (processAcknowledgment (tryDeliverMessage deliverableWithPending).2 ackA3).pending_acks
          (some msgB.msg_id) = some ([ackA2] ++ rest)) :=
  late_ack_after_delivery deliverableWithPending (tryDeliverMessage deliverableWithPending).2
    msgA [msgB] ackA2 ackA3 (some msgB.msg_id) [ackA2] rfl (by decide) (by decide) (by decide)

/-- Trichotomy of the code-point comparison. -/
theorem pyStrLtB_trichotomy : ∀ (a b : List Char),
    pyStrLtB a b = true ∨ a = b ∨ pyStrLtB b a = true
  | [], [] => Or.inr (Or.inl rfl)
  | [], _ :: _ => Or.inl (by simp [pyStrLtB])
  | _ :: _, [] => Or.inr (Or.inr (by simp [pyStrLtB]))
  | x :: xs, y :: ys => by
    rcases lt_trichotomy x y with hxy | hxy | hxy
    · exact Or.inl (by simp [pyStrLtB, hxy])
    · subst hxy
      rcases pyStrLtB_trichotomy xs ys with h | h | h
      · exact Or.inl (by simp [pyStrLtB, h])
      · exact Or.inr (Or.inl (by rw [h]))
      · exact Or.inr (Or.inr (by simp [pyStrLtB, h]))
    · exact Or.inr (Or.inr (by simp [pyStrLtB, hxy]))

/-- Transitivity of the code-point comparison. -/
theorem pyStrLtB_trans : ∀ (a b c : List Char),
    pyStrLtB a b = true → pyStrLtB b c = true → pyStrLtB a c = true
  | [], [], _, hab, _ => by simp [pyStrLtB] at hab
  | [], _ :: _, [], _, hbc => by simp [pyStrLtB] at hbc
  | [], _ :: _, _ :: _, _, _ => by simp [pyStrLtB]
  | _ :: _, [], _, hab, _ => by simp [pyStrLtB] at hab
  | _ :: _, _ :: _, [], _, hbc => by simp [pyStrLtB] at hbc
  | x :: xs, y :: ys, z :: zs, hab, hbc => by
    by_cases hxy : x < y
    · by_cases hyz : y < z
      · simp [pyStrLtB, lt_trans hxy hyz]
      · by_cases hzy : z < y
        · simp [pyStrLtB, hyz, hzy] at hbc
        · have hyz₂ : y = z := le_antisymm (not_lt.mp hzy) (not_lt.mp hyz)
          subst hyz₂
          simp [pyStrLtB, hxy]
    · by_cases hyx : y < x
      · simp [pyStrLtB, hxy, hyx] at hab
      · have hxy₂ : x = y := le_antisymm (not_lt.mp hyx) (not_lt.mp hxy)
        subst hxy₂
        simp only [pyStrLtB, lt_self_iff_false, if_false] at hab
        by_cases hxz : x < z
        · simp [pyStrLtB, hxz]
        · by_cases hzx : z < x
          · simp [pyStrLtB, hxz, hzx] at hbc
          · have hxz₂ : x = z := le_antisymm (not_lt.mp hzx) (not_lt.mp hxz)
            subst hxz₂
            simp only [pyStrLtB, lt_self_iff_false, if_false] at hbc ⊢
            exact pyStrLtB_trans xs ys zs hab hbc

/-- Totality of the Python string order. -/
theorem pyStrLe_total (a b : String) : pyStrLe a b ∨ pyStrLe b a := by
  rcases pyStrLtB_trichotomy a.data b.data with h | h | h
  · exact Or.inl (Or.inl h)
  · refine Or.inl (Or.inr ?_)
    cases a
    cases b
    exact congrArg String.mk h
  · exact Or.inr (Or.inl h)

/-- Transitivity of the Python string order. -/
theorem pyStrLe_trans (a b c : String) (h₁ : pyStrLe a b) (h₂ : pyStrLe b c) :
    pyStrLe a c := by
  rcases h₁ with h₁ | h₁
  · rcases h₂ with h₂ | h₂
    · exact Or.inl (pyStrLtB_trans _ _ _ h₁ h₂)
    · subst h₂
      exact Or.inl h₁
  · subst h₁
    exact h₂

instance : IsTotal Message msgKeyLe :=
  ⟨fun a b => by
    rcases lt_trichotomy a.timestamp b.timestamp with h | h | h
    · exact Or.inl (Or.inl h)
    · rcases pyStrLe_total a.sender b.sender with hs | hs
      · exact Or.inl (Or.inr ⟨h, hs⟩)
      · exact Or.inr (Or.inr ⟨h.symm, hs⟩)
    · exact Or.inr (Or.inl h)⟩

instance : IsTrans Message msgKeyLe :=
  ⟨fun a b c hab hbc => by
    rcases hab with h₁ | ⟨he₁, hs₁⟩
    · rcases hbc with h₂ | ⟨he₂, hs₂⟩
      · exact Or.inl (lt_trans h₁ h₂)
      · exact Or.inl (he₂ ▸ h₁)
    · rcases hbc with h₂ | ⟨he₂, hs₂⟩
      · exact Or.inl (he₁ ▸ h₂)
      · exact Or.inr ⟨he₁.trans he₂, pyStrLe_trans _ _ _ hs₁ hs₂⟩⟩

/-- Two sorted lists that are permutations of each other are equal, provided
the sort key is antisymmetric on their members. -/
theorem sorted_perm_eq (q₁ : List Message) :
    ∀ (q₂ : List Message), q₁.Perm q₂ →
      List.Sorted msgKeyLe q₁ → List.Sorted msgKeyLe q₂ →
      (∀ a ∈ q₁, ∀ b ∈ q₁, msgKeyLe a b → msgKeyLe b a → a = b) →
      q₁ = q₂ := by
  induction q₁ with
  | nil =>
    intro q₂ hp _ _ _
    exact hp.nil_eq
  | cons a t ih =>
    intro q₂ hp hs₁ hs₂ hanti
    cases q₂ with
    | nil => exact absurd (List.perm_nil.mp hp) (by simp)
    | cons b u =>
      have hab : a = b := by
        have hamem : a ∈ b :: u := hp.mem_iff.mp (List.mem_cons_self a t)
        have hbmem : b ∈ a :: t := hp.symm.mem_iff.mp (List.mem_cons_self b u)
        rcases List.mem_cons.mp hamem with h₁ | h₁
        · exact h₁
        · rcases List.mem_cons.mp hbmem with h₂ | h₂
          · exact h₂.symm
          · exact hanti a (List.mem_cons_self a t) b (List.mem_cons_of_mem a h₂)
              (List.rel_of_sorted_cons hs₁ b h₂) (List.rel_of_sorted_cons hs₂ a h₁)
      subst hab
      have heq : t = u := ih u hp.cons_inv hs₁.of_cons hs₂.of_cons
        (fun x hx y hy => hanti x (List.mem_cons_of_mem a hx) y (List.mem_cons_of_mem a hy))
      rw [heq]

/-- After receiving a multicast, the queue is the stable sort of the old
queue with the message appended. -/
theorem processReceivedMessage_queue (s : ProcState) (m : Message)
    (hm : m.msg_type = MessageType.multicast) :
    (processReceivedMessage s m).message_queue
      = List.insertionSort msgKeyLe (s.message_queue ++ [m]) := by
  unfold processReceivedMessage update_clock_on_receive increment_for_delivery
  rw [hm]
  dsimp only
  split
  · rw [foldl_processAcknowledgment_queue]
  · rfl

/-- C2: two queues holding an identical collection of messages, each sorted
by `(timestamp, sender)` as every queue is after insertion, are identically
ordered — given the key antisymmetry on the messages present, which is the
spec's id-uniqueness invariant (`msg_id = sender + "_" + timestamp` makes
distinct protocol messages differ in `(timestamp, sender)`); and after every
multicast insertion the queue is sorted ascending by that key. -/
theorem queue_deterministic_and_sorted (s₁ s₂ : ProcState) (m : Message)
    (hperm : s₁.message_queue.Perm s₂.message_queue)
    (hs₁ : List.Sorted msgKeyLe s₁.message_queue)
    (hs₂ : List.Sorted msgKeyLe s₂.message_queue)
    (hanti : ∀ a ∈ s₁.message_queue, ∀ b ∈ s₁.message_queue,
      msgKeyLe a b → msgKeyLe b a → a = b)
    (hm : m.msg_type = MessageType.multicast) :
    s₁.message_queue = s₂.message_queue ∧
      List.Sorted msgKeyLe (processReceivedMessage s₁ m).message_queue := by
  constructor
  · exact sorted_perm_eq _ _ hperm hs₁ hs₂ hanti
  · rw [processReceivedMessage_queue s₁ m hm]
    exact List.sorted_insertionSort msgKeyLe _

/-- Witness for C2 at the concrete two-message state. -/
theorem queue_deterministic_and_sorted_witness :
    baseState.message_queue = baseState.message_queue ∧
      List.Sorted msgKeyLe (processReceivedMessage baseState msgC).message_queue :=
  queue_deterministic_and_sorted baseState baseState msgC (List.Perm.refl _)
    (by decide) (by decide) (by decide) rfl

/-- C9: `from_dict ∘ to_dict` reconstructs every message exactly, in all six
fields; and any successful `from_dict` copies `msg_id` verbatim from the
dictionary instead of re-deriving it from sender and timestamp, so a decoded
wire message keeps a differing id. -/
theorem message_dict_roundtrip (m m₂ : Message) (d : MessageDict)
    (hd : Message.from_dict d = some m₂) :
    Message.from_dict (Message.to_dict m) = some m ∧ m₂.msg_id = d.msg_id := by
  constructor
  · obtain ⟨id, ty, sd, ts, ct, og⟩ := m
    cases ty <;> rfl
  · unfold Message.from_dict at hd
    split at hd
    · exact Option.noConfusion hd
    · injection hd with hd₂
      rw [← hd₂]

/-- Witness for C9: round-trip of `msgB`, and decoding a dictionary whose
`msg_id` is `"weird"` keeps that id. -/
theorem message_dict_roundtrip_witness :
    Message.from_dict (Message.to_dict msgB) = some msgB ∧ weirdMsg.msg_id = weirdDict.msg_id :=
  message_dict_roundtrip msgB weirdMsg weirdDict (by decide)

/-- The hard-coded port map is defined exactly on 5000, 5001, 5002. -/
theorem port_to_process_none_iff (p : Int) :
    port_to_process p = none ↔ p ≠ 5000 ∧ p ≠ 5001 ∧ p ≠ 5002 := by
  unfold port_to_process
  by_cases h₀ : p = 5000
  · simp [h₀]
  · by_cases h₁ : p = 5001
    · simp [h₀, h₁]
    · by_cases h₂ : p = 5002
      · simp [h₀, h₁, h₂]
      · simp [h₀, h₁, h₂]

/-- The comprehension over the port map fails exactly when some port is
unmapped. -/
theorem lookupNames_eq_none_iff (l : List Int) :
    lookupNames l = none ↔ ∃ p ∈ l, port_to_process p = none := by
  induction l with
  | nil => simp [lookupNames]
  | cons p t ih =>
    cases hp : port_to_process p with
    | none =>
      simp only [lookupNames, hp]
      exact ⟨fun _ => ⟨p, List.mem_cons_self p t, hp⟩, fun _ => trivial⟩
    | some n =>
      cases ht : lookupNames t with
      | none =>
        simp only [lookupNames, hp, ht]
        refine ⟨fun _ => ?_, fun _ => trivial⟩
        obtain ⟨q, hq, hqn⟩ := ih.mp ht
        exact ⟨q, List.mem_cons_of_mem p hq, hqn⟩
      | some ns =>
        simp only [lookupNames, hp, ht]
        constructor
        · intro hh
          exact Option.noConfusion hh
        · rintro ⟨q, hq, hqn⟩
          rcases List.mem_cons.mp hq with rfl | hq₂
          · rw [hp] at hqn
            exact Option.noConfusion hqn
          · have hcontra := ih.mpr ⟨q, hq₂, hqn⟩
            rw [ht] at hcontra
            exact Option.noConfusion hcontra

/-- When the comprehension succeeds it returns exactly the mapped names. -/
theorem lookupNames_eq_some (l : List Int) :
    ∀ (ns : List String), lookupNames l = some ns → ns = l.filterMap port_to_process := by
  induction l with
  | nil =>
    intro ns h
    injection h with h₂
    rw [← h₂]
    rfl
  | cons p t ih =>
    intro ns h
    cases hp : port_to_process p with
    | none =>
      rw [lookupNames, hp] at h
      exact Option.noConfusion h
    | some n =>
      cases ht : lookupNames t with
      | none =>
        rw [lookupNames, hp, ht] at h
        exact Option.noConfusion h
      | some ms =>
        rw [lookupNames, hp, ht] at h
        injection h with h₂
        rw [← h₂, List.filterMap_cons, hp, ih ms ht]

/-- C10: `Process.__init__` raises `KeyError` (modelled: `none`) iff the own
port or some element of other_ports lies outside {5000, 5001, 5002} — this
happens during construction, before any networking; when every port lies
inside, construction succeeds and `required_acks` equals the number of
distinct mapped process names. -/
theorem init_process_ports (proc_id : String) (port : Int) (other_ports : List Int)
    (clock_increment : Int) :
    (initProcess proc_id port other_ports clock_increment = none ↔
      ∃ p ∈ port :: other_ports, p ≠ 5000 ∧ p ≠ 5001 ∧ p ≠ 5002) ∧
      ((∀ p ∈ port :: other_ports, p = 5000 ∨ p = 5001 ∨ p = 5002) →
        ∃ s, initProcess proc_id port other_ports clock_increment = some s ∧
          s.required_acks
            = ((port :: other_ports).filterMap port_to_process).toFinset.card) := by
  have hperm := List.perm_insertionSort (fun a b : Int => a ≤ b) (port :: other_ports)
  constructor
  · cases hl : lookupNames (List.insertionSort (fun a b : Int => a ≤ b) (port :: other_ports)) with
    | none =>
      unfold initProcess
      dsimp only
      rw [hl]
      constructor
      · intro _
        obtain ⟨p, hp, hpn⟩ := (lookupNames_eq_none_iff _).mp hl
        exact ⟨p, hperm.mem_iff.mp hp, (port_to_process_none_iff p).mp hpn⟩
      · intro _
        rfl
    | some ns =>
      unfold initProcess
      dsimp only
      rw [hl]
      constructor
      · intro hh
        exact Option.noConfusion hh
      · rintro ⟨p, hp, hpn⟩
        have hcontra := (lookupNames_eq_none_iff _).mpr
          ⟨p, hperm.mem_iff.mpr hp, (port_to_process_none_iff p).mpr hpn⟩
        rw [hl] at hcontra
        exact Option.noConfusion hcontra
  · intro hall
    cases hl : lookupNames (List.insertionSort (fun a b : Int => a ≤ b) (port :: other_ports)) with
    | none =>
      obtain ⟨p, hp, hpn⟩ := (lookupNames_eq_none_iff _).mp hl
      rcases hall p (hperm.mem_iff.mp hp) with h | h | h <;>
        simp [port_to_process, h] at hpn
    | some ns =>
      have hinit : initProcess proc_id port other_ports clock_increment = some { proc_id := proc_id, port := port, other_ports := other_ports, clock_increment := clock_increment, logical_clock := 0, message_queue := [], acknowledgments := [], all_ports := List.insertionSort (fun a b : Int => a ≤ b) (port :: other_ports), all_processes := ns.toFinset, required_acks := ns.toFinset.card, pending_acks := [] } := by
        unfold initProcess
        dsimp only
        rw [hl]
      refine ⟨_, hinit, ?_⟩
      have hfm : (List.filterMap port_to_process
          (List.insertionSort (fun a b : Int => a ≤ b) (port :: other_ports))).toFinset
          = ((port :: other_ports).filterMap port_to_process).toFinset :=
        List.toFinset_eq_of_perm _ _ (List.Perm.filterMap port_to_process hperm)
      show ns.toFinset.card = _
      rw [lookupNames_eq_some _ ns hl, hfm]
